import Mathlib

/-!
Verification of the `StatusLineWatcher` file-tail component
(`src/statusline-capture.ts`).

The watcher keeps, per team, a registry of named sources ("agents"): a set of
attached filesystem watch handles keyed by agent name, and a map of consumed
byte offsets keyed by log-file path, plus a one-way `stopped` flag.

Shallow embedding conventions:
* File content is `List Char` (one `Char` per byte of the modelled alphabet;
  JavaScript `slice`/`length`/`trim`/`split` become list operations).
* External effects are oracle inputs: a file read is an `Option (List Char)`
  (`none` = the read threw), attaching a watch is a `Bool`, `JSON.parse` is a
  caller-supplied `parse : List Char → Option α` (`none` = parse threw).
* JavaScript `Map` objects become association lists with `Map.set` /
  `Map.get` / `Map.delete` counterparts (`mapSet`, `mapGet`, `mapDelete`).
* Each operation returns its new state together with the observable outputs
  (emitted `update` events, logged diagnostics, whether a file was created).
-/

/-- File content / string data, one `Char` per byte. -/
abbrev Str := List Char

/-- Whitespace test used by JavaScript `String.prototype.trim`. -/
def isWS (c : Char) : Bool :=
  c = ' ' || c = '\t' || c = '\n' || c = '\r'

/-- JavaScript `s.trim()`: strip whitespace from both ends. -/
def jsTrim (s : Str) : Str :=
  ((s.dropWhile isWS).reverse.dropWhile isWS).reverse

/-- JavaScript `s.split("\n")`: always returns at least one (possibly empty)
piece; `"" ↦ [""]`, `"a\nb" ↦ ["a","b"]`. -/
def splitLines : Str → List Str
  | [] => [[]]
  | c :: rest =>
    match splitLines rest with
    | [] => [[]]
    | l :: ls => if c = '\n' then [] :: l :: ls else (c :: l) :: ls

/-- `Map.get`: value stored under the first matching key, if any. -/
def mapGet (k : String) : List (String × Nat) → Option Nat
  | [] => none
  | (k', v) :: rest => if k' = k then some v else mapGet k rest

/-- `Map.set`: overwrite the first entry with this key in place, else append. -/
def mapSet (k : String) (v : Nat) : List (String × Nat) → List (String × Nat)
  | [] => [(k, v)]
  | (k', v') :: rest =>
    if k' = k then (k, v) :: rest else (k', v') :: mapSet k v rest

/-- `Map.delete`: remove the first entry with this key, if any. -/
def mapDelete (k : String) : List (String × Nat) → List (String × Nat)
  | [] => []
  | (k', v') :: rest => if k' = k then rest else (k', v') :: mapDelete k rest

/-- Remove the first occurrence of a name (the `watchers` map analogue of
`Map.delete`; handles carry no other observable data). -/
def removeFirst (k : String) : List String → List String
  | [] => []
  | x :: xs => if x = k then xs else x :: removeFirst k xs

/-- `Map.set` on the `watchers` registry: keep the name's position if already
present (the stored handle is replaced), else append. -/
def addName (k : String) : List String → List String
  | [] => [k]
  | x :: xs => if x = k then x :: xs else x :: addName k xs

/-- Modelled from the spec: `teamDir` lives in `paths.ts`, which is not part of
this source tree; the spec only requires one directory per logical group
(team), so the team's directory is named by the team itself. -/
def teamDir (teamName : String) : String :=
  teamName

/-- Directory where statusLine JSON logs are written per agent
(`join(teamDir(teamName), "statusline")`). -/
def statusLineDir (teamName : String) : String :=
  teamDir teamName ++ "/statusline"

/-- Per-agent log-file path (`join(statusLineDir(teamName), agentName + ".jsonl")`). -/
def statusLineLogPath (teamName agentName : String) : String :=
  statusLineDir teamName ++ "/" ++ agentName ++ ".jsonl"

/-- The mutable fields of a `StatusLineWatcher` instance. -/
structure WatcherState where
  teamName : String
  /-- Agent names with a stored watch handle (`this.watchers` keys). -/
  watchers : List String
  /-- Consumed offsets keyed by file path (`this.fileOffsets`). -/
  fileOffsets : List (String × Nat)
  /-- One-way flag set by `stop()`. -/
  stopped : Bool
deriving DecidableEq, Repr

/-- An emitted `update` event: source name, decoded payload, capture time. -/
structure StatusLineEvent (α : Type) where
  agentName : String
  data : α
  timestamp : String
deriving DecidableEq, Repr

/-- Result of one `readNewLines` invocation: the new state, the `update`
events emitted in order, the raw lines logged on parse failure, and whether
the file read itself failed (debug diagnostic, lines 172-175). -/
structure ReadResult (α : Type) where
  state : WatcherState
  events : List (StatusLineEvent α)
  parseDiags : List Str
  readErrorDiag : Bool
deriving DecidableEq, Repr

/-- Result of one `watchAgent` invocation: the new state, whether the missing
log file was created, and whether a watch-attach failure was logged. -/
structure WatchResult where
  state : WatcherState
  fileCreated : Bool
  attachErrorLogged : Bool
deriving DecidableEq, Repr

/-- The per-line loop of `readNewLines` (lines 158-171): skip blank lines,
parse each remaining line independently, emit an event on success and record
a diagnostic on failure. Returns (events, parse diagnostics), each in order. -/
def processLines {α : Type} (parse : Str → Option α) (agentName timestamp : String) :
    List Str → List (StatusLineEvent α) × List Str
  | [] => ([], [])
  | line :: rest =>
    let r := processLines parse agentName timestamp rest
    if jsTrim line = [] then r
    else
      match parse line with
      | some d => (⟨agentName, d, timestamp⟩ :: r.1, r.2)
      | none => (r.1, line :: r.2)

/-- `StatusLineWatcher.readNewLines` (lines 148-176). `fileRead` is the
outcome of `readFileSync`: `none` when it throws. -/
def readNewLines {α : Type} (parse : Str → Option α) (s : WatcherState)
    (agentName filePath timestamp : String) (fileRead : Option Str) : ReadResult α :=
  match fileRead with
  | none => ⟨s, [], [], true⟩
  | some content =>
    let offset := (mapGet filePath s.fileOffsets).getD 0
    let newContent := content.drop offset
    let s1 := { s with fileOffsets := mapSet filePath content.length s.fileOffsets }
    if jsTrim newContent = [] then ⟨s1, [], [], false⟩
    else
      let r := processLines parse agentName timestamp (splitLines (jsTrim newContent))
      ⟨s1, r.1, r.2, false⟩

/-- The offset `watchAgent` records from the initial length read
(lines 99-104): the read length on success, `0` when the read throws. -/
def initialOffset (initialRead : Option Str) : Nat :=
  match initialRead with
  | some c => c.length
  | none => 0

/-- `StatusLineWatcher.watchAgent` (lines 88-118). `fileExists` is the
`existsSync` outcome, `initialRead` the `readFileSync` outcome, `watchOk`
whether `watch()` attached without throwing. -/
def watchAgent (s : WatcherState) (agentName : String)
    (fileExists : Bool) (initialRead : Option Str) (watchOk : Bool) : WatchResult :=
  if s.stopped then ⟨s, false, false⟩
  else
    let filePath := statusLineLogPath s.teamName agentName
    let s1 := { s with fileOffsets := mapSet filePath (initialOffset initialRead) s.fileOffsets }
    if watchOk then ⟨{ s1 with watchers := addName agentName s1.watchers }, !fileExists, false⟩
    else ⟨s1, !fileExists, true⟩

/-- `StatusLineWatcher.unwatchAgent` (lines 123-131). -/
def unwatchAgent (s : WatcherState) (agentName : String) : WatcherState :=
  { s with
    watchers := removeFirst agentName s.watchers
    fileOffsets := mapDelete (statusLineLogPath s.teamName agentName) s.fileOffsets }

/-- `StatusLineWatcher.stop` (lines 136-143). -/
def stop (s : WatcherState) : WatcherState :=
  { s with stopped := true, watchers := [], fileOffsets := [] }

/-- Directories existing in the modelled filesystem. -/
abbrev DirFS := List String

/-- The strict ancestors of a slash-separated path, shortest first
(for `"a/b/c"`: `["a", "a/b"]`). -/
def properAncestors (p : String) : List String :=
  let parts := p.splitOn "/"
  (List.range (parts.length - 1)).map fun i => String.intercalate "/" (parts.take (i + 1))

/-- One step of `mkdirSync(..., { recursive: true })`: create a directory if
it is absent. -/
def mkDirIfAbsent (fs : DirFS) (d : String) : DirFS :=
  if d ∈ fs then fs else d :: fs

/-- `mkdirSync(dir, { recursive: true })`: create every missing ancestor,
then the directory itself. -/
def mkdirRecursive (dir : String) (fs : DirFS) : DirFS :=
  mkDirIfAbsent ((properAncestors dir).foldl mkDirIfAbsent fs) dir

/-- `StatusLineWatcher.ensureDir` (lines 78-83): create the statusline
directory unless it already exists. -/
def ensureDir (teamName : String) (fs : DirFS) : DirFS :=
  if statusLineDir teamName ∈ fs then fs else mkdirRecursive (statusLineDir teamName) fs

/-- The watcher states along a sequence of change notifications, each read
returning the given file content. -/
def runReads {α : Type} (parse : Str → Option α) (agentName filePath timestamp : String)
    (s : WatcherState) : List Str → WatcherState
  | [] => s
  | c :: cs =>
    runReads parse agentName filePath timestamp
      (readNewLines parse s agentName filePath timestamp (some c)).state cs

/-- The recorded offset after each read in a sequence of change
notifications. -/
def offsetTrace {α : Type} (parse : Str → Option α) (agentName filePath timestamp : String)
    (s : WatcherState) : List Str → List Nat
  | [] => []
  | c :: cs =>
    let s' := (readNewLines parse s agentName filePath timestamp (some c)).state
    (mapGet filePath s'.fileOffsets).getD 0 :: offsetTrace parse agentName filePath timestamp s' cs

theorem mapGet_mapSet_self (k : String) (v : Nat) (m : List (String × Nat)) :
    mapGet k (mapSet k v m) = some v := by
  induction m with
  | nil => simp [mapSet, mapGet]
  | cons kv rest ih =>
    obtain ⟨k', v'⟩ := kv
    by_cases h : k' = k <;> simp [mapSet, mapGet, h, ih]

theorem readNewLines_offset {α : Type} (parse : Str → Option α) (s : WatcherState)
    (agent path ts : String) (c : Str) :
    mapGet path (readNewLines parse s agent path ts (some c)).state.fileOffsets
      = some c.length := by
  simp only [readNewLines]
  split <;> simp [mapGet_mapSet_self]

theorem readNewLines_events {α : Type} (parse : Str → Option α) (s : WatcherState)
    (agent path ts : String) (c : Str) :
    (readNewLines parse s agent path ts (some c)).events
      = (processLines parse agent ts
          (splitLines (jsTrim (c.drop ((mapGet path s.fileOffsets).getD 0))))).1 := by
  simp only [readNewLines]
  split
  · next h => rw [h]; simp [splitLines, processLines, jsTrim]
  · rfl

theorem watchAgent_fileOffsets (team : String) (w : List String)
    (off : List (String × Nat)) (agent : String) (fe : Bool) (ir : Option Str) (wk : Bool) :
    (watchAgent ⟨team, w, off, false⟩ agent fe ir wk).state.fileOffsets
      = mapSet (statusLineLogPath team agent) (initialOffset ir) off := by
  cases wk <;> simp [watchAgent]

theorem watchAgent_teamName (team : String) (w : List String)
    (off : List (String × Nat)) (agent : String) (fe : Bool) (ir : Option Str) (wk : Bool) :
    (watchAgent ⟨team, w, off, false⟩ agent fe ir wk).state.teamName = team := by
  cases wk <;> simp [watchAgent]

/-- C1: registering a source over a file that already holds `c0` records
`c0.length` as the initial offset, and a later `readNewLines` that sees
`c0 ++ appended` emits exactly the events of the appended part — the
pre-existing content is never replayed. -/
theorem c1_no_replay {α : Type} (parse : Str → Option α)
    (team : String) (w : List String) (off : List (String × Nat))
    (agent ts : String) (c0 appended : Str) (fe wk : Bool) :
    mapGet (statusLineLogPath team agent)
        (watchAgent ⟨team, w, off, false⟩ agent fe (some c0) wk).state.fileOffsets
      = some c0.length ∧
    (readNewLines parse (watchAgent ⟨team, w, off, false⟩ agent fe (some c0) wk).state
        agent (statusLineLogPath team agent) ts (some (c0 ++ appended))).events
      = (processLines parse agent ts (splitLines (jsTrim appended))).1 := by
  have hoff := watchAgent_fileOffsets team w off agent fe (some c0) wk
  constructor
  · rw [hoff]; exact mapGet_mapSet_self ..
  · rw [readNewLines_events, hoff, mapGet_mapSet_self]
    simp [initialOffset, List.drop_left]

/-- C4: after `stop()` the watcher refuses registration (`watchAgent` leaves
the state untouched, creates no file, logs nothing), holds no watch handles,
and the `stopped` flag — set by `stop` and preserved by every operation — is
never cleared. -/
theorem c4_post_stop_refusal {α : Type} (s : WatcherState) :
    (∀ (agent : String) (fe : Bool) (ir : Option Str) (wk : Bool),
        watchAgent (stop s) agent fe ir wk = ⟨stop s, false, false⟩) ∧
    (stop s).watchers = [] ∧
    (stop s).stopped = true ∧
    (∀ (s' : WatcherState) (agent : String) (fe : Bool) (ir : Option Str) (wk : Bool),
        (watchAgent s' agent fe ir wk).state.stopped = s'.stopped) ∧
    (∀ (s' : WatcherState) (agent : String),
        (unwatchAgent s' agent).stopped = s'.stopped) ∧
    (∀ (parse : Str → Option α) (s' : WatcherState) (agent path ts : String)
        (fr : Option Str),
        (readNewLines parse s' agent path ts fr).state.stopped = s'.stopped) ∧
    (stop (stop s)).stopped = true := by
  refine ⟨fun agent fe ir wk => ?_, rfl, rfl, fun s' agent fe ir wk => ?_,
    fun s' agent => rfl, fun parse s' agent path ts fr => ?_, rfl⟩
  · simp [watchAgent, stop]
  · by_cases h : s'.stopped <;> cases wk <;> simp [watchAgent, h]
  · cases fr with
    | none => rfl
    | some c => simp only [readNewLines]; split <;> rfl

/-- C5: whenever the file read in `readNewLines` succeeds, the stored offset
for that path becomes the full content length — unconditionally, so also when
the new slice is empty, all whitespace, or unparsable and no event is emitted. -/
theorem c5_offset_unconditional {α : Type} (parse : Str → Option α) (s : WatcherState)
    (agent path ts : String) (c : Str) :
    mapGet path (readNewLines parse s agent path ts (some c)).state.fileOffsets
      = some c.length :=
  readNewLines_offset parse s agent path ts c

/-- C6: when the file read in `readNewLines` fails, no event is emitted, the
state (offsets and watch handles) is untouched, only the read-error
diagnostic is produced, and the call returns normally. -/
theorem c6_read_failure_noop {α : Type} (parse : Str → Option α) (s : WatcherState)
    (agent path ts : String) :
    readNewLines parse s agent path ts none = ⟨s, [], [], true⟩ :=
  rfl

/-- C7: when the initial length read at registration fails, `watchAgent`
records offset `0`, so the next `readNewLines` treats the entire current
file content as new and parses it line by line. -/
theorem c7_fallback_offset {α : Type} (parse : Str → Option α)
    (team : String) (w : List String) (off : List (String × Nat))
    (agent ts : String) (fe wk : Bool) (c : Str) :
    mapGet (statusLineLogPath team agent)
        (watchAgent ⟨team, w, off, false⟩ agent fe none wk).state.fileOffsets
      = some 0 ∧
    (readNewLines parse (watchAgent ⟨team, w, off, false⟩ agent fe none wk).state
        agent (statusLineLogPath team agent) ts (some c)).events
      = (processLines parse agent ts (splitLines (jsTrim c))).1 := by
  have hoff := watchAgent_fileOffsets team w off agent fe none wk
  constructor
  · rw [hoff]; exact mapGet_mapSet_self ..
  · rw [readNewLines_events, hoff, mapGet_mapSet_self]
    simp [initialOffset]

theorem offsetTrace_eq_map_length {α : Type} (parse : Str → Option α)
    (agent path ts : String) (s : WatcherState) (cs : List Str) :
    offsetTrace parse agent path ts s cs = cs.map List.length := by
  induction cs generalizing s with
  | nil => rfl
  | cons c cs ih => simp [offsetTrace, readNewLines_offset, ih]

/-- C2: along any sequence of successful reads, the recorded offset after the
N-th read equals the file length seen by that read; under the append-only
producer contract (non-decreasing lengths, initial offset at most the first
length) the offset never decreases. -/
theorem c2_offset_monotonicity {α : Type} (parse : Str → Option α)
    (agent path ts : String) (s : WatcherState) (cs : List Str)
    (hchain : List.Chain' (fun a b : Str => a.length ≤ b.length) cs)
    (hinit : ∀ c ∈ cs.head?, (mapGet path s.fileOffsets).getD 0 ≤ c.length) :
    offsetTrace parse agent path ts s cs = cs.map List.length ∧
    List.Chain' (· ≤ ·)
      ((mapGet path s.fileOffsets).getD 0 :: offsetTrace parse agent path ts s cs) := by
  refine ⟨offsetTrace_eq_map_length .., ?_⟩
  rw [offsetTrace_eq_map_length, List.chain'_cons']
  refine ⟨?_, (List.chain'_map List.length).mpr hchain⟩
  intro y hy
  rw [List.head?_map] at hy
  obtain ⟨c, hc, rfl⟩ := Option.map_eq_some'.mp hy
  exact hinit c hc

/-- Witness for C2: two reads of lengths 1 then 2 from a fresh watcher. -/
theorem c2_offset_monotonicity_witness :
    List.Chain' (fun a b : Str => a.length ≤ b.length) [['x'], ['x', 'y']] ∧
    (∀ c ∈ ([['x'], ['x', 'y']] : List Str).head?,
        (mapGet "p" (⟨"t", [], [], false⟩ : WatcherState).fileOffsets).getD 0 ≤ c.length) ∧
    (offsetTrace (fun _ : Str => (none : Option Nat)) "a" "p" "ts" ⟨"t", [], [], false⟩
          [['x'], ['x', 'y']] = ([['x'], ['x', 'y']] : List Str).map List.length ∧
      List.Chain' (· ≤ ·)
        ((mapGet "p" (⟨"t", [], [], false⟩ : WatcherState).fileOffsets).getD 0 ::
          offsetTrace (fun _ : Str => (none : Option Nat)) "a" "p" "ts" ⟨"t", [], [], false⟩
            [['x'], ['x', 'y']])) :=
  ⟨by simp [List.chain'_cons], by intro c hc; exact Nat.zero_le _,
    c2_offset_monotonicity (fun _ : Str => (none : Option Nat)) "a" "p" "ts"
      ⟨"t", [], [], false⟩ [['x'], ['x', 'y']] (by simp [List.chain'_cons])
      (by intro c hc; exact Nat.zero_le _)⟩

theorem dropWhile_isWS_eq_self (l : Str) (h : ∀ c ∈ l.head?, isWS c = false) :
    l.dropWhile isWS = l := by
  cases l with
  | nil => rfl
  | cons x xs => simp [List.dropWhile_cons, h x rfl]

theorem jsTrim_eq_self (l : Str) (h1 : ∀ c ∈ l.head?, isWS c = false)
    (h2 : ∀ c ∈ l.getLast?, isWS c = false) : jsTrim l = l := by
  unfold jsTrim
  rw [dropWhile_isWS_eq_self l h1,
    dropWhile_isWS_eq_self l.reverse (by rw [List.head?_reverse]; exact h2),
    List.reverse_reverse]

theorem jsTrim_eq_nil_iff (l : Str) : jsTrim l = [] ↔ ∀ c ∈ l, isWS c = true := by
  unfold jsTrim
  rw [List.reverse_eq_nil_iff, List.dropWhile_eq_nil_iff]
  constructor
  · intro h c hc
    have hsplit : List.takeWhile isWS l ++ List.dropWhile isWS l = l :=
      List.takeWhile_append_dropWhile isWS l
    rcases List.mem_append.mp (hsplit ▸ hc) with h1 | h2
    · exact List.mem_takeWhile_imp h1
    · exact h c (List.mem_reverse.mpr h2)
  · intro h c hc
    exact h c ((List.dropWhile_sublist isWS).mem (List.mem_reverse.mp hc))

theorem jsTrim_ne_nil_of_mem (l : Str) (c : Char) (hc : c ∈ l) (h : isWS c = false) :
    jsTrim l ≠ [] := by
  intro hnil
  have := (jsTrim_eq_nil_iff l).mp hnil c hc
  rw [h] at this
  exact Bool.false_ne_true this

theorem jsTrim_ne_nil_of_head (l : Str) (hne : l ≠ [])
    (hh : ∀ c ∈ l.head?, isWS c = false) : jsTrim l ≠ [] := by
  cases l with
  | nil => exact absurd rfl hne
  | cons x xs => exact jsTrim_ne_nil_of_mem _ x (List.mem_cons_self ..) (hh x rfl)

theorem jsTrim_ne_nil_of_getLast (l : Str) (hne : l ≠ [])
    (hh : ∀ c ∈ l.getLast?, isWS c = false) : jsTrim l ≠ [] := by
  obtain ⟨y, hy⟩ := Option.isSome_iff_exists.mp (List.getLast?_isSome.mpr hne)
  obtain ⟨h0, he⟩ := List.mem_getLast?_eq_getLast (show y ∈ l.getLast? from hy)
  exact jsTrim_ne_nil_of_mem _ y (he ▸ List.getLast_mem h0) (hh y hy)

theorem getLast?_append_right (l l' : Str) (h : l' ≠ []) :
    (l ++ l').getLast? = l'.getLast? := by
  obtain ⟨y, hy⟩ := Option.isSome_iff_exists.mp (List.getLast?_isSome.mpr h)
  rw [List.getLast?_append, hy]
  rfl

theorem getLast?_cons_of_ne_nil (c : Char) (l : Str) (h : l ≠ []) :
    (c :: l).getLast? = l.getLast? := by
  have e : (c :: l : Str) = [c] ++ l := rfl
  rw [e, getLast?_append_right _ _ h]

theorem splitLines_ne_nil (l : Str) : splitLines l ≠ [] := by
  cases l with
  | nil => simp [splitLines]
  | cons c cs =>
    cases h : splitLines cs with
    | nil => simp [splitLines, h]
    | cons a as =>
      simp only [splitLines, h]
      split <;> simp

theorem splitLines_no_newline (l : Str) (h : '\n' ∉ l) : splitLines l = [l] := by
  induction l with
  | nil => rfl
  | cons c cs ih =>
    have hc : c ≠ '\n' := by rintro rfl; exact h (List.mem_cons_self ..)
    have hcs : '\n' ∉ cs := fun hm => h (List.mem_cons_of_mem _ hm)
    simp [splitLines, ih hcs, hc]

theorem splitLines_append (l r : Str) (h : '\n' ∉ l) :
    splitLines (l ++ '\n' :: r) = l :: splitLines r := by
  induction l with
  | nil =>
    cases hr : splitLines r with
    | nil => exact absurd hr (splitLines_ne_nil r)
    | cons a as => simp [splitLines, hr]
  | cons c cs ih =>
    have hc : c ≠ '\n' := by rintro rfl; exact h (List.mem_cons_self ..)
    have hcs : '\n' ∉ cs := fun hm => h (List.mem_cons_of_mem _ hm)
    simp only [List.cons_append, splitLines, List.append_eq]
    rw [ih hcs]
    simp [hc]

theorem readNewLines_parseDiags {α : Type} (parse : Str → Option α) (s : WatcherState)
    (agent path ts : String) (c : Str) :
    (readNewLines parse s agent path ts (some c)).parseDiags
      = (processLines parse agent ts
          (splitLines (jsTrim (c.drop ((mapGet path s.fileOffsets).getD 0))))).2 := by
  simp only [readNewLines]
  split
  · next h => rw [h]; simp [splitLines, processLines, jsTrim]
  · rfl

/-- C3: an appended chunk of a well-formed line, a malformed line and another
well-formed line yields exactly two update events (for the well-formed lines,
in order), one parse diagnostic carrying the malformed line, and the stored
offset still advances past the entire chunk. -/
theorem c3_batch_resilience {α : Type} (parse : Str → Option α)
    (s : WatcherState) (agent path ts : String) (old gA bad gB : Str) (a b : α)
    (hoff : mapGet path s.fileOffsets = some old.length)
    (hA : parse gA = some a) (hB : parse gB = some b) (hbad : parse bad = none)
    (hAn : '\n' ∉ gA) (hbn : '\n' ∉ bad) (hBn : '\n' ∉ gB)
    (hAne : gA ≠ []) (hAh : ∀ c ∈ gA.head?, isWS c = false)
    (hBne : gB ≠ []) (hBl : ∀ c ∈ gB.getLast?, isWS c = false)
    (hbadTrim : jsTrim bad ≠ []) :
    (readNewLines parse s agent path ts
        (some (old ++ (gA ++ ('\n' :: (bad ++ ('\n' :: gB))))))).events
      = [⟨agent, a, ts⟩, ⟨agent, b, ts⟩] ∧
    (readNewLines parse s agent path ts
        (some (old ++ (gA ++ ('\n' :: (bad ++ ('\n' :: gB))))))).parseDiags
      = [bad] ∧
    mapGet path (readNewLines parse s agent path ts
        (some (old ++ (gA ++ ('\n' :: (bad ++ ('\n' :: gB))))))).state.fileOffsets
      = some (old ++ (gA ++ ('\n' :: (bad ++ ('\n' :: gB))))).length := by
  have hne1 : ('\n' :: (bad ++ ('\n' :: gB)) : Str) ≠ [] := by simp
  have hne2 : (bad ++ ('\n' :: gB) : Str) ≠ [] := by simp
  have hne3 : ('\n' :: gB : Str) ≠ [] := by simp
  have hhead : (gA ++ ('\n' :: (bad ++ ('\n' :: gB)))).head? = gA.head? := by
    cases gA with
    | nil => exact absurd rfl hAne
    | cons x xs => rfl
  have hlast : (gA ++ ('\n' :: (bad ++ ('\n' :: gB)))).getLast? = gB.getLast? := by
    rw [getLast?_append_right gA ('\n' :: (bad ++ ('\n' :: gB))) hne1,
      getLast?_cons_of_ne_nil '\n' (bad ++ ('\n' :: gB)) hne2,
      getLast?_append_right bad ('\n' :: gB) hne3,
      getLast?_cons_of_ne_nil '\n' gB hBne]
  have htrim : jsTrim (gA ++ ('\n' :: (bad ++ ('\n' :: gB))))
      = gA ++ ('\n' :: (bad ++ ('\n' :: gB))) :=
    jsTrim_eq_self _ (by rw [hhead]; exact hAh) (by rw [hlast]; exact hBl)
  have hsplit : splitLines (gA ++ ('\n' :: (bad ++ ('\n' :: gB)))) = [gA, bad, gB] := by
    rw [splitLines_append gA (bad ++ ('\n' :: gB)) hAn, splitLines_append bad gB hbn,
      splitLines_no_newline gB hBn]
  have hgA : jsTrim gA ≠ [] := jsTrim_ne_nil_of_head _ hAne hAh
  have hgB : jsTrim gB ≠ [] := jsTrim_ne_nil_of_getLast _ hBne hBl
  have hpl : processLines parse agent ts [gA, bad, gB]
      = ([⟨agent, a, ts⟩, ⟨agent, b, ts⟩], [bad]) := by
    simp [processLines, hgA, hgB, hbadTrim, hA, hB, hbad]
  refine ⟨?_, ?_, readNewLines_offset ..⟩
  · rw [readNewLines_events, hoff, Option.getD_some, List.drop_left, htrim, hsplit, hpl]
  · rw [readNewLines_parseDiags, hoff, Option.getD_some, List.drop_left, htrim, hsplit, hpl]

/-- Witness for C3: a fresh offset-0 source reading the chunk
`"1" \n "x" \n "2"` under a parser accepting `"1"` and `"2"`. -/
theorem c3_batch_resilience_witness :
    (mapGet "p" (⟨"t", [], [("p", 0)], false⟩ : WatcherState).fileOffsets
        = some (List.length ([] : Str))) ∧
    ((fun l : Str => if l = ['1'] then some 1 else if l = ['2'] then some 2 else none) ['1']
        = some 1) ∧
    ((fun l : Str => if l = ['1'] then some 1 else if l = ['2'] then some 2 else none) ['2']
        = some 2) ∧
    ((fun l : Str => if l = ['1'] then some 1 else if l = ['2'] then some 2 else none) ['x']
        = (none : Option Nat)) ∧
    ('\n' ∉ (['1'] : Str)) ∧ ('\n' ∉ (['x'] : Str)) ∧ ('\n' ∉ (['2'] : Str)) ∧
    ((['1'] : Str) ≠ []) ∧ (∀ c ∈ (['1'] : Str).head?, isWS c = false) ∧
    ((['2'] : Str) ≠ []) ∧ (∀ c ∈ (['2'] : Str).getLast?, isWS c = false) ∧
    (jsTrim ['x'] ≠ []) ∧
    ((readNewLines (fun l : Str => if l = ['1'] then some 1 else if l = ['2'] then some 2 else none)
          ⟨"t", [], [("p", 0)], false⟩ "ag" "p" "ts"
          (some ([] ++ (['1'] ++ ('\n' :: (['x'] ++ ('\n' :: ['2']))))))).events
        = [⟨"ag", 1, "ts"⟩, ⟨"ag", 2, "ts"⟩] ∧
      (readNewLines (fun l : Str => if l = ['1'] then some 1 else if l = ['2'] then some 2 else none)
          ⟨"t", [], [("p", 0)], false⟩ "ag" "p" "ts"
          (some ([] ++ (['1'] ++ ('\n' :: (['x'] ++ ('\n' :: ['2']))))))).parseDiags
        = [['x']] ∧
      mapGet "p" (readNewLines (fun l : Str => if l = ['1'] then some 1 else if l = ['2'] then some 2 else none)
          ⟨"t", [], [("p", 0)], false⟩ "ag" "p" "ts"
          (some ([] ++ (['1'] ++ ('\n' :: (['x'] ++ ('\n' :: ['2']))))))).state.fileOffsets
        = some ([] ++ (['1'] ++ ('\n' :: (['x'] ++ ('\n' :: ['2']))))).length) :=
  ⟨by decide, by decide, by decide, by decide, by decide, by decide, by decide, by decide,
    by intro c hc; simp at hc; subst hc; decide,
    by decide,
    by intro c hc; simp at hc; subst hc; decide,
    by decide,
    c3_batch_resilience
      (fun l : Str => if l = ['1'] then some 1 else if l = ['2'] then some 2 else none)
      ⟨"t", [], [("p", 0)], false⟩ "ag" "p" "ts" [] ['1'] ['x'] ['2'] 1 2
      (by decide) (by decide) (by decide) (by decide) (by decide) (by decide) (by decide)
      (by decide) (by intro c hc; simp at hc; subst hc; decide) (by decide)
      (by intro c hc; simp at hc; subst hc; decide) (by decide)⟩

theorem removeFirst_of_notMem (k : String) (l : List String) (h : k ∉ l) :
    removeFirst k l = l := by
  induction l with
  | nil => rfl
  | cons x xs ih =>
    have hx : x ≠ k := fun e => h (e ▸ List.mem_cons_self ..)
    simp [removeFirst, hx, ih fun hm => h (List.mem_cons_of_mem _ hm)]

theorem notMem_removeFirst (k : String) (l : List String) (h : l.Nodup) :
    k ∉ removeFirst k l := by
  induction l with
  | nil => simp [removeFirst]
  | cons x xs ih =>
    rw [List.nodup_cons] at h
    by_cases hx : x = k
    · subst hx
      simpa [removeFirst] using h.1
    · simp only [removeFirst, if_neg hx, List.mem_cons]
      rintro (e | hm)
      · exact hx e.symm
      · exact ih h.2 hm

theorem mapGet_eq_none_of_notMem (k : String) (m : List (String × Nat))
    (h : k ∉ m.map Prod.fst) : mapGet k m = none := by
  induction m with
  | nil => rfl
  | cons kv rest ih =>
    obtain ⟨k', v'⟩ := kv
    simp only [List.map_cons, List.mem_cons] at h
    push_neg at h
    have hk : k' ≠ k := fun e => h.1 e.symm
    simp [mapGet, hk, ih h.2]

theorem mapDelete_of_get_none (k : String) (m : List (String × Nat))
    (h : mapGet k m = none) : mapDelete k m = m := by
  induction m with
  | nil => rfl
  | cons kv rest ih =>
    obtain ⟨k', v'⟩ := kv
    by_cases hk : k' = k
    · simp [mapGet, hk] at h
    · rw [mapGet, if_neg hk] at h
      simp [mapDelete, hk, ih h]

theorem mapGet_mapDelete_self (k : String) (m : List (String × Nat))
    (h : (m.map Prod.fst).Nodup) : mapGet k (mapDelete k m) = none := by
  induction m with
  | nil => rfl
  | cons kv rest ih =>
    obtain ⟨k', v'⟩ := kv
    rw [List.map_cons, List.nodup_cons] at h
    by_cases hk : k' = k
    · subst hk
      rw [mapDelete, if_pos rfl]
      exact mapGet_eq_none_of_notMem k' rest h.1
    · rw [mapDelete, if_neg hk, mapGet, if_neg hk]
      exact ih h.2

/-- C8: a single `unwatchAgent` call removes the stored watch handle for the
source (if present) and discards its offset, and unregistration is
idempotent — a second call for the same name changes nothing, and on a
never-registered source (no handle, no offset) a single call already changes
nothing. -/
theorem c8_unwatch_idempotent (s : WatcherState) (agent : String)
    (hw : s.watchers.Nodup) (ho : (s.fileOffsets.map Prod.fst).Nodup) :
    agent ∉ (unwatchAgent s agent).watchers ∧
    mapGet (statusLineLogPath s.teamName agent) (unwatchAgent s agent).fileOffsets = none ∧
    unwatchAgent (unwatchAgent s agent) agent = unwatchAgent s agent ∧
    (agent ∉ s.watchers →
      mapGet (statusLineLogPath s.teamName agent) s.fileOffsets = none →
      unwatchAgent s agent = s) := by
  refine ⟨?_, ?_, ?_, ?_⟩
  · simp only [unwatchAgent]
    exact notMem_removeFirst agent s.watchers hw
  · simp only [unwatchAgent]
    exact mapGet_mapDelete_self _ _ ho
  · simp only [unwatchAgent]
    rw [removeFirst_of_notMem _ _ (notMem_removeFirst agent s.watchers hw),
      mapDelete_of_get_none _ _ (mapGet_mapDelete_self _ _ ho)]
  · intro h1 h2
    simp only [unwatchAgent]
    rw [removeFirst_of_notMem _ _ h1, mapDelete_of_get_none _ _ h2]

/-- Witness for C8: a watcher with one registered source `"a"` whose handle
and offset a single call removes. -/
theorem c8_unwatch_idempotent_witness :
    ((⟨"t", ["a"], [("t/statusline/a.jsonl", 3)], false⟩ : WatcherState).watchers.Nodup) ∧
    (((⟨"t", ["a"], [("t/statusline/a.jsonl", 3)], false⟩ : WatcherState).fileOffsets.map
        Prod.fst).Nodup) ∧
    ("a" ∉ (unwatchAgent ⟨"t", ["a"], [("t/statusline/a.jsonl", 3)], false⟩ "a").watchers ∧
      mapGet (statusLineLogPath
          (⟨"t", ["a"], [("t/statusline/a.jsonl", 3)], false⟩ : WatcherState).teamName "a")
        (unwatchAgent ⟨"t", ["a"], [("t/statusline/a.jsonl", 3)], false⟩ "a").fileOffsets
        = none ∧
      unwatchAgent (unwatchAgent ⟨"t", ["a"], [("t/statusline/a.jsonl", 3)], false⟩ "a") "a"
        = unwatchAgent ⟨"t", ["a"], [("t/statusline/a.jsonl", 3)], false⟩ "a" ∧
      ("a" ∉ (⟨"t", ["a"], [("t/statusline/a.jsonl", 3)], false⟩ : WatcherState).watchers →
        mapGet (statusLineLogPath
            (⟨"t", ["a"], [("t/statusline/a.jsonl", 3)], false⟩ : WatcherState).teamName "a")
          (⟨"t", ["a"], [("t/statusline/a.jsonl", 3)], false⟩ : WatcherState).fileOffsets = none →
        unwatchAgent ⟨"t", ["a"], [("t/statusline/a.jsonl", 3)], false⟩ "a"
          = ⟨"t", ["a"], [("t/statusline/a.jsonl", 3)], false⟩)) :=
  ⟨by decide, by decide,
    c8_unwatch_idempotent ⟨"t", ["a"], [("t/statusline/a.jsonl", 3)], false⟩ "a"
      (by decide) (by decide)⟩

theorem mem_mkDirIfAbsent (fs : DirFS) (d : String) : d ∈ mkDirIfAbsent fs d := by
  by_cases h : d ∈ fs <;> simp [mkDirIfAbsent, h]

theorem mem_mkDirIfAbsent_of_mem (fs : DirFS) (d x : String) (h : x ∈ fs) :
    x ∈ mkDirIfAbsent fs d := by
  by_cases hd : d ∈ fs <;> simp [mkDirIfAbsent, hd, h]

theorem mem_foldl_mkDirIfAbsent_of_mem (l : List String) :
    ∀ (fs : DirFS) (x : String), x ∈ fs → x ∈ l.foldl mkDirIfAbsent fs := by
  induction l with
  | nil => intro fs x h; exact h
  | cons d ds ih => intro fs x h; exact ih _ x (mem_mkDirIfAbsent_of_mem fs d x h)

theorem mem_foldl_mkDirIfAbsent_self (l : List String) :
    ∀ (fs : DirFS) (d : String), d ∈ l → d ∈ l.foldl mkDirIfAbsent fs := by
  induction l with
  | nil => intro fs d h; cases h
  | cons e es ih =>
    intro fs d h
    rcases List.mem_cons.mp h with rfl | hm
    · exact mem_foldl_mkDirIfAbsent_of_mem es _ d (mem_mkDirIfAbsent fs d)
    · exact ih _ d hm

theorem mem_mkdirRecursive_self (dir : String) (fs : DirFS) :
    dir ∈ mkdirRecursive dir fs :=
  mem_mkDirIfAbsent _ dir

theorem ensureDir_of_mem (team : String) (fs : DirFS) (h : statusLineDir team ∈ fs) :
    ensureDir team fs = fs := by
  simp [ensureDir, h]

theorem mem_ensureDir_self (team : String) (fs : DirFS) :
    statusLineDir team ∈ ensureDir team fs := by
  by_cases h : statusLineDir team ∈ fs <;> simp [ensureDir, h, mem_mkdirRecursive_self]

/-- C9: `ensureDir` is idempotent — it does nothing when the statusline
directory already exists, running it twice equals running it once — and when
the directory is absent it is created together with its parents. -/
theorem c9_ensure_dir_idempotent (team : String) (fs : DirFS) :
    (statusLineDir team ∈ fs → ensureDir team fs = fs) ∧
    ensureDir team (ensureDir team fs) = ensureDir team fs ∧
    statusLineDir team ∈ ensureDir team fs ∧
    (statusLineDir team ∉ fs →
      ∀ p ∈ properAncestors (statusLineDir team), p ∈ ensureDir team fs) := by
  refine ⟨ensureDir_of_mem team fs,
    ensureDir_of_mem team _ (mem_ensureDir_self team fs),
    mem_ensureDir_self team fs, ?_⟩
  intro hab p hp
  have he : ensureDir team fs = mkdirRecursive (statusLineDir team) fs := by
    simp [ensureDir, hab]
  rw [he]
  unfold mkdirRecursive
  exact mem_mkDirIfAbsent_of_mem _ _ p (mem_foldl_mkDirIfAbsent_self _ _ p hp)

/-- Witness for C9 at team `"t"` and an empty filesystem. -/
theorem c9_ensure_dir_idempotent_witness :
    ensureDir "t" (ensureDir "t" []) = ensureDir "t" [] ∧
    statusLineDir "t" ∈ ensureDir "t" [] :=
  ⟨(c9_ensure_dir_idempotent "t" []).2.1, (c9_ensure_dir_idempotent "t" []).2.2.1⟩

theorem mem_addName_self (k : String) (l : List String) : k ∈ addName k l := by
  induction l with
  | nil => simp [addName]
  | cons x xs ih => by_cases h : x = k <;> simp [addName, h, ih]

/-- C10 (counterexample): when a handle for `"a"` is already stored from an
earlier successful registration, a second `watchAgent` call for `"a"` whose
attach fails leaves that handle in the registry — the source does not end up
without a stored watch handle. -/
theorem c10_counterexample :
    "a" ∈ (watchAgent (watchAgent ⟨"t", [], [], false⟩ "a" true (some ['x']) true).state
        "a" true (some ['x', 'y']) false).state.watchers := by
  decide

/-- C10 (amended): for a source with no previously stored watch handle, a
registration whose attach fails stores no handle (and logs the failure), yet
the offset recorded earlier in the same call stays in the offset map keyed by
the source's file path; a later successful re-registration of the same name
overwrites that offset and stores a handle. -/
theorem c10_attach_failure (team : String) (w : List String) (off : List (String × Nat))
    (agent : String) (fe fe2 : Bool) (ir : Option Str) (c2 : Str)
    (hnot : agent ∉ w) :
    (watchAgent ⟨team, w, off, false⟩ agent fe ir false).state.watchers = w ∧
    agent ∉ (watchAgent ⟨team, w, off, false⟩ agent fe ir false).state.watchers ∧
    (watchAgent ⟨team, w, off, false⟩ agent fe ir false).attachErrorLogged = true ∧
    mapGet (statusLineLogPath team agent)
        (watchAgent ⟨team, w, off, false⟩ agent fe ir false).state.fileOffsets
      = some (initialOffset ir) ∧
    mapGet (statusLineLogPath team agent)
        (watchAgent (watchAgent ⟨team, w, off, false⟩ agent fe ir false).state
            agent fe2 (some c2) true).state.fileOffsets
      = some c2.length ∧
    agent ∈ (watchAgent (watchAgent ⟨team, w, off, false⟩ agent fe ir false).state
        agent fe2 (some c2) true).state.watchers := by
  have hstate : (watchAgent ⟨team, w, off, false⟩ agent fe ir false).state
      = ⟨team, w, mapSet (statusLineLogPath team agent) (initialOffset ir) off, false⟩ := by
    simp [watchAgent]
  refine ⟨by rw [hstate], by rw [hstate]; exact hnot, by simp [watchAgent], ?_, ?_, ?_⟩
  · rw [hstate]
    exact mapGet_mapSet_self ..
  · rw [hstate, watchAgent_fileOffsets, initialOffset]
    exact mapGet_mapSet_self ..
  · rw [hstate]
    have hw : (watchAgent ⟨team, w, mapSet (statusLineLogPath team agent)
        (initialOffset ir) off, false⟩ agent fe2 (some c2) true).state.watchers
        = addName agent w := by
      simp [watchAgent]
    rw [hw]
    exact mem_addName_self ..

/-- Witness for C10 (amended) at a fresh watcher and source `"a"`. -/
theorem c10_attach_failure_witness :
    ("a" ∉ ([] : List String)) ∧
    ((watchAgent ⟨"t", [], [], false⟩ "a" true none false).state.watchers = [] ∧
      "a" ∉ (watchAgent ⟨"t", [], [], false⟩ "a" true none false).state.watchers ∧
      (watchAgent ⟨"t", [], [], false⟩ "a" true none false).attachErrorLogged = true ∧
      mapGet (statusLineLogPath "t" "a")
          (watchAgent ⟨"t", [], [], false⟩ "a" true none false).state.fileOffsets
        = some (initialOffset none) ∧
      mapGet (statusLineLogPath "t" "a")
          (watchAgent (watchAgent ⟨"t", [], [], false⟩ "a" true none false).state
              "a" true (some ['z']) true).state.fileOffsets
        = some (['z'] : Str).length ∧
      "a" ∈ (watchAgent (watchAgent ⟨"t", [], [], false⟩ "a" true none false).state
          "a" true (some ['z']) true).state.watchers) :=
  ⟨by decide, c10_attach_failure "t" [] [] "a" true true none ['z'] (by decide)⟩
